import Mathlib

/- Shallow embedding of the availability-computation core of the gcal-availability
repository (src/App.tsx): timezone-local date handling, the work-hours overlap
calculator, category-driven event classification, and the aggregation pipeline
of `processCalendarData`, together with theorems settling the frozen claims.

Modeling conventions.  JavaScript numbers carrying minute counts are embedded as
`Int`; fractional quantities (hours, buffered minutes) as `ℚ`.  The `Intl`
timezone conversions are an external library from the core's point of view, so an
event is embedded by the attributes the source derives from it: its local civil
date, the local clock minutes of its start and end instants, its millisecond
duration in minutes, and the weekday test of its start.  Civil dates are embedded
by their day number since the Unix epoch; `formatDateToYMD` renders a date as an
injective "YYYY-MM-DD" key, which the embedding models by keying maps directly by
the civil date.  JavaScript objects used as keyed records are embedded as
association lists in insertion order, matching string-keyed property ordering. -/

namespace GCalAvailability

/-- Worker for `jsSplit`: JavaScript `String.prototype.split` with a one-character
separator, over explicit character lists. -/
def jsSplitAux (sep : Char) : List Char → List Char → List (List Char)
  | [], acc => [acc.reverse]
  | c :: cs, acc =>
      if c = sep then acc.reverse :: jsSplitAux sep cs []
      else jsSplitAux sep cs (c :: acc)

/-- JavaScript `s.split(sep)` for a one-character separator. -/
def jsSplit (s : String) (sep : Char) : List String :=
  (jsSplitAux sep s.data []).map fun cs => String.mk cs

/-- Does the first list start with the second one? -/
def startsWithChars : List Char → List Char → Bool
  | _, [] => true
  | [], _ :: _ => false
  | c :: cs, p :: ps => c == p && startsWithChars cs ps

/-- Does the second list occur contiguously inside the first one? -/
def charsInclude (pat : List Char) : List Char → Bool
  | [] => startsWithChars [] pat
  | c :: cs => startsWithChars (c :: cs) pat || charsInclude pat cs

/-- JavaScript `s.includes(pat)` (contiguous substring test). -/
def strIncludes (s pat : String) : Bool :=
  charsInclude pat.data s.data

/-- ASCII whitespace, which covers the summaries the source trims. -/
def isJsSpace (c : Char) : Bool :=
  c == ' ' || c == '\t' || c == '\n' || c == '\r'

/-- JavaScript `s.trim()`: drop whitespace from both ends. -/
def jsTrim (s : String) : String :=
  String.mk (((s.data.dropWhile isJsSpace).reverse.dropWhile isJsSpace).reverse)

/-- JavaScript `s.toLowerCase()` on ASCII text. -/
def jsToLower (s : String) : String :=
  String.mk (s.data.map Char.toLower)

/-- JavaScript `Number(s)` restricted to strings of decimal digits, the shape of
the configured HH and MM fields; `Number("") = 0` also holds.  Inputs that produce
NaN in JavaScript are outside the modeled domain. -/
def jsStringToNat (s : String) : Nat :=
  s.data.foldl (fun acc c => acc * 10 + (c.toNat - 48)) 0

/-- Embeds `parseTimeToMinutes` (App.tsx 44-48): split "HH:MM" on the colon and
return hours * 60 + minutes.  A string without a colon has an undefined minutes
component (NaN arithmetic) in the source and is outside the modeled domain. -/
def parseTimeToMinutes (timeStr : String) : Int :=
  match jsSplit timeStr ':' with
  | h :: m :: _ => (jsStringToNat h : Int) * 60 + (jsStringToNat m : Int)
  | h :: [] => (jsStringToNat h : Int) * 60
  | [] => 0

/-- A civil (calendar) date, as the number of days since the Unix epoch.  The
source passes civil dates around as "YYYY-MM-DD" strings and JS `Date` values;
advancing by one calendar day and date comparison become arithmetic on the day
number, and the injective "YYYY-MM-DD" rendering used as a record key is modeled
by keying maps directly by the date. -/
structure CivilDate where
  dayNumber : Int
deriving DecidableEq

/-- Embeds `isWeekend` (App.tsx 130-133): `getDay()` is 0 for Sunday and 6 for
Saturday; day number 0 (1970-01-01) is a Thursday, whose `getDay()` is 4. -/
def isWeekend (date : CivilDate) : Bool :=
  let day := (date.dayNumber + 4) % 7
  day == 0 || day == 6

/-- Embeds `getDatesInRange` (App.tsx 29-42): the while loop pushes one date per
calendar day while `currentDate <= endDate`, so an end date before the start date
yields the empty list. -/
def getDatesInRange (startDate endDate : CivilDate) : List CivilDate :=
  (List.range (endDate.dayNumber - startDate.dayNumber + 1).toNat).map
    fun i => ⟨startDate.dayNumber + i⟩

/-- Embeds the `CalendarCategory` enumeration (types.ts). -/
inductive CalendarCategory where
  | inactive
  | fungible
  | task
deriving DecidableEq

/-- Embeds `DailyEventDetail.impactType` (types.ts). -/
inductive ImpactType where
  | reduces_available
  | task_tracked
  | ignored
deriving DecidableEq

/-- Embeds `TimeConfig` (types.ts).  Dates are civil dates, clock times keep
their "HH:MM" string form, and `timeBufferFactor` is the rational the source
stores as a float.  The timezone enters the computation only through the
externally derived local attributes of events, so it is carried but unused. -/
structure TimeConfig where
  startDate : CivilDate
  endDate : CivilDate
  weekdayStartTime : String
  weekdayEndTime : String
  weekendStartTime : String
  weekendEndTime : String
  timezone : String
  timeBufferFactor : ℚ
deriving DecidableEq

/-- Embeds the fields of `GoogleCalendar` the core reads (types.ts). -/
structure GoogleCalendar where
  id : String
  summary : String
deriving DecidableEq

/-- Embeds a `GoogleCalendarEvent` by the attributes `processCalendarData`
derives from it.  `hasStartDateTime` and `hasEndDateTime` record the presence of
`event.start.dateTime` and `event.end.dateTime`; `localDate` is
`formatDateToYMD(eventStart, timezone)`; `startClock` and `endClock` are the
timezone-local clock minutes of the start and end instants (the `toLocaleString`
conversions in `calculateWorkHoursOverlap`); `durationMinutes` is
`(eventEnd - eventStart) / 60000`; `startIsWeekend` is `isWeekend(eventStart)`.
When a dateTime is absent the source never reads the derived attributes, so their
values are immaterial. -/
structure GEvent where
  summary : String
  hasStartDateTime : Bool
  hasEndDateTime : Bool
  localDate : CivilDate
  startClock : Int
  endClock : Int
  durationMinutes : ℚ
  startIsWeekend : Bool
deriving DecidableEq

/-- An event tagged with `__calendarId` and `__calendarCategory`, as built when
`processCalendarData` collects `relevantEvents` (App.tsx 380-387). -/
structure TaggedEvent extends GEvent where
  calendarId : String
  calendarCategory : CalendarCategory
deriving DecidableEq

/-- Embeds `calculateWorkHoursOverlap` (App.tsx 51-127).  The source derives both
`eventDateStr` and `eventDateInTZ` from the event's start instant in the same
timezone (two identically valued "en-CA" renderings), so callers pass the event's
local date for both; the guard returns 0 when they differ.  The unused
`workStartInTZ` and offset scratch values in the source do not affect the result
and are omitted. -/
def calculateWorkHoursOverlap (eventDateStr eventDateInTZ : CivilDate)
    (eventStartMinutes eventEndMinutes : Int)
    (workStartTime workEndTime : String) : Int :=
  let workStartMinutes := parseTimeToMinutes workStartTime
  let workEndMinutes := parseTimeToMinutes workEndTime
  if eventDateInTZ ≠ eventDateStr then 0
  else
    let overlapStart := max eventStartMinutes workStartMinutes
    let overlapEnd := min eventEndMinutes workEndMinutes
    if overlapStart ≥ overlapEnd then 0
    else overlapEnd - overlapStart

/-- Embeds one per-day record of the `dailyAvailabilityMap` (App.tsx 359-364). -/
structure DayCapacity where
  availableMinutes : ℚ
  totalMinutes : ℚ
  fungibleMinutes : ℚ
  taskMinutes : ℚ
deriving DecidableEq

/-- Embeds one value of the `projectTaskMap` record (App.tsx 389). -/
structure ProjectTaskEntry where
  project : String
  task : String
  hours : ℚ
  color : String
deriving DecidableEq

/-- Embeds one value of the `fungibleTimeMap` record (App.tsx 390). -/
structure FungibleEntry where
  calendarSummary : String
  totalHours : ℚ
  color : String
deriving DecidableEq

/-- Embeds `DailyEventDetail` (types.ts); the `toLocaleTimeString` display
strings are modeled by the underlying local clock minutes. -/
structure DailyEventDetail where
  summary : String
  calendarName : String
  category : CalendarCategory
  startClock : Int
  endClock : Int
  durationHours : ℚ
  impactType : ImpactType
deriving DecidableEq

/-- Lookup in a JavaScript record embedded as an association list. -/
def alistLookup {α β : Type} [DecidableEq α] : List (α × β) → α → Option β
  | [], _ => none
  | (k, v) :: rest, key => if k = key then some v else alistLookup rest key

/-- In-place update of the (unique) binding of `key`, leaving other bindings and
the insertion order untouched, as JavaScript property assignment does. -/
def alistUpdate {α β : Type} [DecidableEq α] :
    List (α × β) → α → (β → β) → List (α × β)
  | [], _, _ => []
  | (k, v) :: rest, key, f =>
      if k = key then (k, f v) :: rest else (k, v) :: alistUpdate rest key f

/-- Embeds `PROJECT_COLORS` from `constants.tsx` (whose content appears in src
appended to `components/ChartComponents.tsx`): the fixed 12-entry color palette
cycled by first-encounter order. -/
def PROJECT_COLORS : List String :=
  ["#FF6384", "#36A2EB", "#FFCE56", "#4BC0C0", "#9966FF", "#FF9F40",
   "#E74C3C", "#8E44AD", "#2ECC71", "#F1C40F", "#3498DB", "#1ABC9C"]

/-- Embeds `TASK_CALENDAR_BLOCK_KEYWORDS` from `constants.tsx` (whose content
appears in src appended to `components/ChartComponents.tsx`): the lowercase
blocking keywords. -/
def TASK_CALENDAR_BLOCK_KEYWORDS : List String :=
  ["block", "new event"]

/-- The mutable maps local to one `processCalendarData` invocation
(App.tsx 359-393), threaded explicitly through the event pass. -/
structure ProcState where
  daily : List (CivilDate × DayCapacity)
  projectTaskMap : List (String × ProjectTaskEntry)
  fungibleTimeMap : List (String × FungibleEntry)
  dailyDetailsMap : List (CivilDate × List DailyEventDetail)
  projectColorMap : List (String × String)
  nextColorIndex : Nat
deriving DecidableEq

/-- Embeds `getProjectColor` (App.tsx 394-400): first use of a project name
allocates the next palette color (cyclically); later uses return the stored one.
The source's falsy test on the stored color is an `Option` test here, faithful
because palette colors are non-empty strings. -/
def getProjectColor (s : ProcState) (project : String) : String × ProcState :=
  match alistLookup s.projectColorMap project with
  | some c => (c, s)
  | none =>
      let c := PROJECT_COLORS.getD (s.nextColorIndex % PROJECT_COLORS.length) ""
      (c, { s with
              projectColorMap := s.projectColorMap ++ [(project, c)],
              nextColorIndex := s.nextColorIndex + 1 })

/-- Embeds the fungible capacity deduction (App.tsx 449-450):
`fungibleMinutes += overlap; availableMinutes -= overlap` on the event's day. -/
def applyFungibleDeduction (daily : List (CivilDate × DayCapacity))
    (date : CivilDate) (overlap : Int) : List (CivilDate × DayCapacity) :=
  alistUpdate daily date fun d =>
    { d with
        fungibleMinutes := d.fungibleMinutes + (overlap : ℚ),
        availableMinutes := d.availableMinutes - (overlap : ℚ) }

/-- Embeds the task capacity deduction (App.tsx 476-477):
`taskMinutes += overlap; availableMinutes -= overlap` on the event's day. -/
def applyTaskDeduction (daily : List (CivilDate × DayCapacity))
    (date : CivilDate) (overlap : Int) : List (CivilDate × DayCapacity) :=
  alistUpdate daily date fun d =>
    { d with
        taskMinutes := d.taskMinutes + (overlap : ℚ),
        availableMinutes := d.availableMinutes - (overlap : ℚ) }

/-- Embeds the blocking-keyword test (App.tsx 469). -/
def isBlockedSummary (summaryLower : String) : Bool :=
  TASK_CALENDAR_BLOCK_KEYWORDS.any fun keyword => strIncludes summaryLower keyword

/-- Embeds the project/task identity derivation (App.tsx 484-490).  The absent
summary of the source is modeled by the empty string, which is equally falsy in
every branch the source takes.  `split(':', 2)` keeps only the first two
segments, so the task is the text between the first and second colon. -/
def parseProjectTask (summary : String) : String × String :=
  if strIncludes summary ":" then
    match jsSplit summary ':' with
    | p :: t :: _ => (jsTrim p, jsTrim t)
    | _ => ("Unassigned", if summary = "" then "Unnamed Task" else summary)
  else if summary ≠ "" then (summary, summary)
  else ("Unassigned", "Unnamed Task")

/-- The normalized `taskKey` (App.tsx 493-495):
lower-cased trimmed project and task joined by "::". -/
def taskKeyOf (summary : String) : String :=
  jsToLower (jsTrim (parseProjectTask summary).1) ++ "::" ++
    jsToLower (jsTrim (parseProjectTask summary).2)

/-- The work-hours overlap computed for an event inside the event pass
(App.tsx 418-430): the work window is the weekend one when `isWeekend(eventStart)`
holds, and both the analyzed date string and the event's local date passed to
`calculateWorkHoursOverlap` are derived from the event's start instant. -/
def eventOverlap (cfg : TimeConfig) (event : TaggedEvent) : Int :=
  calculateWorkHoursOverlap event.localDate event.localDate
    event.startClock event.endClock
    (if event.startIsWeekend then cfg.weekendStartTime else cfg.weekdayStartTime)
    (if event.startIsWeekend then cfg.weekendEndTime else cfg.weekdayEndTime)

/-- Embeds the `fungibleTimeMap` bookkeeping of the fungible branch
(App.tsx 456-467): create the calendar's entry on first sight (with zero hours
and a color allocated for the calendar summary), then add the overlap hours. -/
def fungibleSummaryUpdate (event : TaggedEvent) (cal : GoogleCalendar)
    (overlap : Int) (s1 : ProcState) : ProcState :=
  let s2 :=
    if (alistLookup s1.fungibleTimeMap event.calendarId).isNone then
      let cs := getProjectColor s1 cal.summary
      { cs.2 with
          fungibleTimeMap :=
            cs.2.fungibleTimeMap ++ [(event.calendarId, ⟨cal.summary, 0, cs.1⟩)] }
    else s1
  { s2 with
      fungibleTimeMap := alistUpdate s2.fungibleTimeMap event.calendarId
        fun e => { e with totalHours := e.totalHours + (overlap : ℚ) / 60 } }

/-- Embeds the fungible branch (App.tsx 446-467): a positive overlap reduces the
day's availability and marks the event `reduces_available`; the fungible summary
entry is updated whenever the source calendar is known, also at zero overlap. -/
def fungibleBranch (event : TaggedEvent) (calendar : Option GoogleCalendar)
    (overlap : Int) (s : ProcState) : ImpactType × ProcState :=
  let s1 :=
    if overlap > 0 then
      { s with daily := applyFungibleDeduction s.daily event.localDate overlap }
    else s
  let impactType :=
    if overlap > 0 then ImpactType.reduces_available else ImpactType.ignored
  match calendar with
  | some cal => (impactType, fungibleSummaryUpdate event cal overlap s1)
  | none => (impactType, s1)

/-- Embeds the `projectTaskMap` bookkeeping of the task branch (App.tsx 484-505):
create the bucket on first sight (with zero hours and a color allocated for the
project), then add the full event duration in hours. -/
def taskBucketUpdate (event : TaggedEvent) (s1 : ProcState) : ProcState :=
  let pt := parseProjectTask event.summary
  let key := taskKeyOf event.summary
  let s2 :=
    if (alistLookup s1.projectTaskMap key).isNone then
      let cs := getProjectColor s1 pt.1
      { cs.2 with
          projectTaskMap := cs.2.projectTaskMap ++ [(key, ⟨pt.1, pt.2, 0, cs.1⟩)] }
    else s1
  { s2 with
      projectTaskMap := alistUpdate s2.projectTaskMap key
        fun e => { e with hours := e.hours + event.durationMinutes / 60 } }

/-- Embeds the task branch (App.tsx 468-506): blocked summaries are ignored;
otherwise a positive overlap reduces the day's availability, and the project/task
bucket receives the full event duration regardless of overlap. -/
def taskBranch (event : TaggedEvent) (overlap : Int) (s : ProcState) :
    ImpactType × ProcState :=
  if isBlockedSummary (jsToLower event.summary) then (ImpactType.ignored, s)
  else
    let s1 :=
      if overlap > 0 then
        { s with daily := applyTaskDeduction s.daily event.localDate overlap }
      else s
    (ImpactType.task_tracked, taskBucketUpdate event s1)

/-- The daily-detail row pushed for a non-ignored event (App.tsx 515-523). -/
def mkDetail (event : TaggedEvent) (calendarName : String)
    (impactType : ImpactType) : DailyEventDetail :=
  { summary := if event.summary = "" then "Unnamed Event" else event.summary,
    calendarName := calendarName,
    category := event.calendarCategory,
    startClock := event.startClock,
    endClock := event.endClock,
    durationHours := event.durationMinutes / 60,
    impactType := impactType }

/-- Embeds the daily-details push (App.tsx 511-524): ensure the day's list exists,
then append the detail row. -/
def pushDailyDetail (s : ProcState) (date : CivilDate)
    (detail : DailyEventDetail) : ProcState :=
  if (alistLookup s.dailyDetailsMap date).isNone then
    { s with dailyDetailsMap := s.dailyDetailsMap ++ [(date, [detail])] }
  else
    { s with
        dailyDetailsMap := alistUpdate s.dailyDetailsMap date fun l => l ++ [detail] }

/-- The tail of the per-event pass (App.tsx 509-524): events whose impact is not
`ignored` get a daily-detail row. -/
def finishEvent (event : TaggedEvent) (calendarName : String)
    (impactType : ImpactType) (s1 : ProcState) : ProcState :=
  if impactType ≠ ImpactType.ignored then
    pushDailyDetail s1 event.localDate (mkDetail event calendarName impactType)
  else s1

/-- Embeds one iteration of the `relevantEvents.forEach` pass (App.tsx 402-526):
skip events missing either precise instant, skip events whose local date has no
capacity record, otherwise classify by calendar category and record the impact. -/
def processEvent (cfg : TimeConfig) (allCalendars : List GoogleCalendar)
    (s : ProcState) (event : TaggedEvent) : ProcState :=
  if event.hasStartDateTime = false ∨ event.hasEndDateTime = false then s
  else
    match alistLookup s.daily event.localDate with
    | none => s
    | some _ =>
        let calendar := allCalendars.find? fun c => c.id == event.calendarId
        let calendarName := (calendar.map GoogleCalendar.summary).getD "Unknown Calendar"
        let overlap := eventOverlap cfg event
        let r :=
          if event.calendarCategory = CalendarCategory.fungible then
            fungibleBranch event calendar overlap s
          else if event.calendarCategory = CalendarCategory.task then
            taskBranch event overlap s
          else (ImpactType.ignored, s)
        finishEvent event calendarName r.1 r.2

/-- The nominal minutes of the work window that applies on `date`: the weekend
window on Saturday and Sunday, else the weekday window (App.tsx 367-370). -/
def dailyWindowMinutes (cfg : TimeConfig) (date : CivilDate) : Int :=
  let startTime := if isWeekend date then cfg.weekendStartTime else cfg.weekdayStartTime
  let endTime := if isWeekend date then cfg.weekendEndTime else cfg.weekdayEndTime
  parseTimeToMinutes endTime - parseTimeToMinutes startTime

/-- Embeds the initialization of one `dailyAvailabilityMap` record
(App.tsx 365-378): work minutes of the day's window scaled by the buffer factor,
with `totalMinutes` obtained by dividing the scaled value back. -/
def initDayCapacity (cfg : TimeConfig) (date : CivilDate) : DayCapacity :=
  let dailyWorkMinutes : ℚ :=
    ((dailyWindowMinutes cfg date : Int) : ℚ) * cfg.timeBufferFactor
  { availableMinutes := max 0 dailyWorkMinutes,
    totalMinutes := max 0 (dailyWorkMinutes / cfg.timeBufferFactor),
    fungibleMinutes := 0,
    taskMinutes := 0 }

/-- The `dailyAvailabilityMap` after its initialization loop (App.tsx 365-378). -/
def initialDailyAvailabilityMap (cfg : TimeConfig) (datesInRange : List CivilDate) :
    List (CivilDate × DayCapacity) :=
  datesInRange.map fun date => (date, initDayCapacity cfg date)

/-- The fresh local state at the start of one `processCalendarData` invocation:
all maps empty, the color cursor at zero, the capacity map initialized over the
configured date range. -/
def initState (cfg : TimeConfig) : ProcState :=
  { daily := initialDailyAvailabilityMap cfg (getDatesInRange cfg.startDate cfg.endDate),
    projectTaskMap := [],
    fungibleTimeMap := [],
    dailyDetailsMap := [],
    projectColorMap := [],
    nextColorIndex := 0 }

/-- The whole `relevantEvents.forEach` pass as a fold. -/
def runEvents (cfg : TimeConfig) (allCalendars : List GoogleCalendar)
    (s : ProcState) (events : List TaggedEvent) : ProcState :=
  events.foldl (processEvent cfg allCalendars) s

/-- Embeds the collection of `relevantEvents` (App.tsx 380-387): events of every
calendar categorized Fungible or Task, tagged with calendar id and category, in
calendar order.  `eventsOf` stands for the external `listEvents` fetch. -/
def relevantEvents (allCalendars : List GoogleCalendar)
    (calendarCategories : List (String × CalendarCategory))
    (eventsOf : String → List GEvent) : List TaggedEvent :=
  allCalendars.foldl
    (fun acc cal =>
      match alistLookup calendarCategories cal.id with
      | some category =>
          if category = CalendarCategory.fungible ∨ category = CalendarCategory.task then
            acc ++ (eventsOf cal.id).map fun e =>
              { toGEvent := e, calendarId := cal.id, calendarCategory := category }
          else acc
      | none => acc)
    []

/-- Embeds `DailyAvailability` (types.ts); the `displayDate` rendering is modeled
by the civil date itself. -/
structure DailyAvailability where
  date : CivilDate
  availableHours : ℚ
  totalHours : ℚ
deriving DecidableEq

/-- Embeds `DailyDetails` (types.ts). -/
structure DailyDetails where
  date : CivilDate
  events : List DailyEventDetail
deriving DecidableEq

/-- Embeds `ProjectSummary` (types.ts). -/
structure ProjectSummary where
  project : String
  totalHours : ℚ
  color : String
deriving DecidableEq

/-- Embeds `FungibleTimeSummary` (types.ts); `project` carries the calendar
summary, as the source adapts it for the chart component. -/
structure FungibleTimeSummary where
  project : String
  totalHours : ℚ
  color : String
deriving DecidableEq

/-- Embeds `ProcessedData` (types.ts). -/
structure ProcessedData where
  dailyAvailability : List DailyAvailability
  projectTasks : List ProjectTaskEntry
  projectSummaries : List ProjectSummary
  fungibleTimeSummary : List FungibleTimeSummary
  dailyDetails : List DailyDetails
deriving DecidableEq

/-- Stable insertion of one element into a sorted list. -/
def insertSorted {α : Type} (le : α → α → Bool) (x : α) : List α → List α
  | [] => [x]
  | y :: ys => if le x y then x :: y :: ys else y :: insertSorted le x ys

/-- Stable comparator sort standing in for JavaScript `Array.prototype.sort`. -/
def sortByKey {α : Type} (le : α → α → Bool) (l : List α) : List α :=
  l.foldr (insertSorted le) []

/-- Strict lexicographic character-list order. -/
def charsLt : List Char → List Char → Bool
  | [], [] => false
  | [], _ :: _ => true
  | _ :: _, [] => false
  | a :: as, b :: bs => Nat.blt a.toNat b.toNat || (a == b && charsLt as bs)

/-- Lexicographic string order standing in for a negative `localeCompare`. -/
def strLtB (a b : String) : Bool :=
  charsLt a.data b.data

/-- The `projectTasks` sort order (App.tsx 583): by project, then by task. -/
def projectTaskLe (a b : ProjectTaskEntry) : Bool :=
  strLtB a.project b.project || (a.project == b.project && !(strLtB b.task a.task))

/-- Descending order by a rational measure, as the `b - a` comparators of the
summary sorts (App.tsx 575, 579). -/
def hoursDescLe {α : Type} (hours : α → ℚ) (a b : α) : Bool :=
  decide (hours b ≤ hours a)

/-- Never-consulted default: every date of the range has a capacity record. -/
def defaultDayCapacity : DayCapacity :=
  ⟨0, 0, 0, 0⟩

/-- Embeds `finalDailyAvailability` (App.tsx 528-547): per day, the remaining
hours floored at 0, and as chart `totalHours` the capacity after only the
fungible deduction, also floored at 0. -/
def finalDailyAvailability (datesInRange : List CivilDate)
    (daily : List (CivilDate × DayCapacity)) : List DailyAvailability :=
  datesInRange.map fun date =>
    let data := (alistLookup daily date).getD defaultDayCapacity
    let availableAfterFungible := max 0 ((data.totalMinutes - data.fungibleMinutes) / 60)
    { date := date,
      availableHours := max 0 (data.availableMinutes / 60),
      totalHours := availableAfterFungible }

/-- Accumulator of `projectSummariesMap` (App.tsx 566). -/
structure ProjectSummaryAcc where
  totalHours : ℚ
  color : String
deriving DecidableEq

/-- Embeds the project-summary aggregation (App.tsx 566-575): fold the task
buckets by project (first bucket's color wins), then sort descending by hours. -/
def buildProjectSummaries (projectTaskData : List ProjectTaskEntry) :
    List ProjectSummary :=
  let m : List (String × ProjectSummaryAcc) :=
    projectTaskData.foldl
      (fun m pt =>
        let m :=
          if (alistLookup m pt.project).isNone then m ++ [(pt.project, ⟨0, pt.color⟩)]
          else m
        alistUpdate m pt.project fun e => { e with totalHours := e.totalHours + pt.hours })
      []
  sortByKey (hoursDescLe ProjectSummary.totalHours)
    (m.map fun p => { project := p.1, totalHours := p.2.totalHours, color := p.2.color })

/-- Embeds `processCalendarData` (App.tsx 319-595) as a computation from the
already-fetched inputs to the produced `ProcessedData`, rejected with the
user-facing validation message when a work window is not positive.  The
`timeMin`/`timeMax` fetch-boundary computation concerns only the external
`listEvents` collaborator abstracted by `eventsOf`. -/
def processCalendarData (cfg : TimeConfig) (allCalendars : List GoogleCalendar)
    (calendarCategories : List (String × CalendarCategory))
    (eventsOf : String → List GEvent) : Except String ProcessedData :=
  let weekdayWorkMinutes :=
    parseTimeToMinutes cfg.weekdayEndTime - parseTimeToMinutes cfg.weekdayStartTime
  let weekendWorkMinutes :=
    parseTimeToMinutes cfg.weekendEndTime - parseTimeToMinutes cfg.weekendStartTime
  if weekdayWorkMinutes ≤ 0 then
    Except.error "Weekday end time must be after start time."
  else if weekendWorkMinutes ≤ 0 then
    Except.error "Weekend end time must be after start time."
  else
    let datesInRange := getDatesInRange cfg.startDate cfg.endDate
    let events := relevantEvents allCalendars calendarCategories eventsOf
    let sF := runEvents cfg allCalendars (initState cfg) events
    let projectTaskData := sF.projectTaskMap.map Prod.snd
    Except.ok
      { dailyAvailability := finalDailyAvailability datesInRange sF.daily,
        projectTasks := sortByKey projectTaskLe projectTaskData,
        projectSummaries := buildProjectSummaries projectTaskData,
        fungibleTimeSummary :=
          sortByKey (hoursDescLe FungibleTimeSummary.totalHours)
            ((sF.fungibleTimeMap.map Prod.snd).map fun d =>
              { project := d.calendarSummary, totalHours := d.totalHours,
                color := d.color }),
        dailyDetails := datesInRange.map fun date =>
          { date := date, events := (alistLookup sF.dailyDetailsMap date).getD [] } }

/-- The hours accumulated in a project/task bucket, 0 when the bucket does not
exist yet. -/
def bucketHours (m : List (String × ProjectTaskEntry)) (key : String) : ℚ :=
  ((alistLookup m key).map ProjectTaskEntry.hours).getD 0

/-- The invariant each `dailyAvailabilityMap` record keeps during the event pass:
deductions are non-negative, `totalMinutes` never changes, and `availableMinutes`
is exactly its initial value minus the accumulated deductions (with no clamping
applied during the pass). -/
def DayInv (cfg : TimeConfig) (p : CivilDate × DayCapacity) : Prop :=
  0 ≤ p.2.fungibleMinutes ∧ 0 ≤ p.2.taskMinutes ∧
  p.2.totalMinutes = (initDayCapacity cfg p.1).totalMinutes ∧
  p.2.availableMinutes =
    (initDayCapacity cfg p.1).availableMinutes - p.2.fungibleMinutes - p.2.taskMinutes

/- ### Concrete scenario inputs used by counterexamples and witnesses -/

/-- Scenario B of the spec: one weekday (day number 0 is a Thursday), 09:00-17:00
weekday window, buffer factor 4/5 (0.8). -/
def scenBConfig : TimeConfig :=
  { startDate := ⟨0⟩, endDate := ⟨0⟩,
    weekdayStartTime := "09:00", weekdayEndTime := "17:00",
    weekendStartTime := "10:00", weekendEndTime := "18:00",
    timezone := "America/New_York", timeBufferFactor := 4/5 }

/-- One fungible calendar. -/
def scenBCalendars : List GoogleCalendar :=
  [⟨"cal-fungible", "Errands"⟩]

/-- The category assignment marking that calendar Fungible. -/
def scenBCategories : List (String × CalendarCategory) :=
  [("cal-fungible", CalendarCategory.fungible)]

/-- A fungible event 10:00-11:00 local time on the analyzed day. -/
def scenBEvent : GEvent :=
  { summary := "Meeting", hasStartDateTime := true, hasEndDateTime := true,
    localDate := ⟨0⟩, startClock := 600, endClock := 660,
    durationMinutes := 60, startIsWeekend := false }

/-- The per-calendar event lists of scenario B. -/
def scenBEventsOf : String → List GEvent :=
  fun id => if id = "cal-fungible" then [scenBEvent] else []

/-- A fungible event covering the whole 09:00-17:00 window, used to drive
`availableMinutes` below zero. -/
def fullWindowEvent : GEvent :=
  { summary := "All day obligations", hasStartDateTime := true, hasEndDateTime := true,
    localDate := ⟨0⟩, startClock := 540, endClock := 1020,
    durationMinutes := 480, startIsWeekend := false }

/-- Event lists serving the full-window fungible event. -/
def fullWindowEventsOf : String → List GEvent :=
  fun id => if id = "cal-fungible" then [fullWindowEvent] else []

/-- A configuration whose end date precedes its start date, with valid windows. -/
def revRangeConfig : TimeConfig :=
  { scenBConfig with startDate := ⟨5⟩, endDate := ⟨3⟩ }

/-- A configuration whose weekday window ends before it starts. -/
def badWindowConfig : TimeConfig :=
  { scenBConfig with weekdayStartTime := "17:00", weekdayEndTime := "09:00" }

/-- A task-category event 07:00-08:00 local time, entirely before the work
window (overlap 0), one hour long. -/
def earlyTaskEvent : TaggedEvent :=
  { summary := "Acme: Draft proposal", hasStartDateTime := true, hasEndDateTime := true,
    localDate := ⟨0⟩, startClock := 420, endClock := 480,
    durationMinutes := 60, startIsWeekend := false,
    calendarId := "cal-task", calendarCategory := CalendarCategory.task }

/-- A task calendar list containing the early task event's calendar. -/
def taskCalendars : List GoogleCalendar :=
  [⟨"cal-task", "Work Tasks"⟩]

/-- A tagged event missing its precise start instant. -/
def noStartEvent : TaggedEvent :=
  { summary := "All-day offsite", hasStartDateTime := false, hasEndDateTime := true,
    localDate := ⟨0⟩, startClock := 0, endClock := 0,
    durationMinutes := 0, startIsWeekend := false,
    calendarId := "cal-task", calendarCategory := CalendarCategory.task }

/-- A fungible-category event 07:00-08:00 local time, entirely before the work
window (overlap 0), from the scenario B fungible calendar. -/
def earlyFungibleEvent : TaggedEvent :=
  { summary := "Morning errand", hasStartDateTime := true, hasEndDateTime := true,
    localDate := ⟨0⟩, startClock := 420, endClock := 480,
    durationMinutes := 60, startIsWeekend := false,
    calendarId := "cal-fungible", calendarCategory := CalendarCategory.fungible }

/- ### Association-list lemmas -/

theorem alistLookup_mem {α β : Type} [DecidableEq α] :
    ∀ {l : List (α × β)} {k : α} {v : β}, alistLookup l k = some v → (k, v) ∈ l := by
  intro l
  induction l with
  | nil => intro k v h; simp [alistLookup] at h
  | cons q rest ih =>
      intro k v h
      obtain ⟨k', v'⟩ := q
      by_cases hk : k' = k
      · subst hk
        rw [alistLookup, if_pos rfl] at h
        obtain rfl := Option.some.inj h
        exact List.mem_cons_self _ _
      · rw [alistLookup, if_neg hk] at h
        exact List.mem_cons_of_mem _ (ih h)

theorem alistUpdate_forall {α β : Type} [DecidableEq α] (P : α → β → Prop) :
    ∀ (l : List (α × β)) (k : α) (f : β → β),
      (∀ p ∈ l, P p.1 p.2) → (∀ v, P k v → P k (f v)) →
      ∀ p ∈ alistUpdate l k f, P p.1 p.2 := by
  intro l
  induction l with
  | nil => intro k f _ _ p hp; simp [alistUpdate] at hp
  | cons q rest ih =>
      intro k f hl hf p hp
      obtain ⟨k', v'⟩ := q
      rw [alistUpdate] at hp
      by_cases hk : k' = k
      · rw [if_pos hk] at hp
        rcases List.mem_cons.mp hp with h1 | h2
        · subst h1
          subst hk
          exact hf v' (hl (k', v') (List.mem_cons_self _ _))
        · exact hl p (List.mem_cons_of_mem _ h2)
      · rw [if_neg hk] at hp
        rcases List.mem_cons.mp hp with h1 | h2
        · subst h1; exact hl (k', v') (List.mem_cons_self _ _)
        · exact ih k f (fun q hq => hl q (List.mem_cons_of_mem _ hq)) hf p h2

theorem alistLookup_update_self {α β : Type} [DecidableEq α] :
    ∀ (l : List (α × β)) (k : α) (f : β → β),
      alistLookup (alistUpdate l k f) k = (alistLookup l k).map f := by
  intro l
  induction l with
  | nil => intro k f; rfl
  | cons q rest ih =>
      intro k f
      obtain ⟨k', v'⟩ := q
      by_cases hk : k' = k
      · rw [alistUpdate, if_pos hk, alistLookup, if_pos hk, alistLookup, if_pos hk]
        rfl
      · rw [alistUpdate, if_neg hk, alistLookup, if_neg hk, alistLookup, if_neg hk]
        exact ih k f

theorem alistLookup_append_of_none {α β : Type} [DecidableEq α] :
    ∀ {l : List (α × β)} {k : α}, alistLookup l k = none →
      ∀ l2 : List (α × β), alistLookup (l ++ l2) k = alistLookup l2 k := by
  intro l
  induction l with
  | nil => intro k _ l2; rfl
  | cons q rest ih =>
      intro k h l2
      obtain ⟨k', v'⟩ := q
      by_cases hk : k' = k
      · rw [alistLookup, if_pos hk] at h; exact absurd h (by simp)
      · rw [alistLookup, if_neg hk] at h
        rw [List.cons_append, alistLookup, if_neg hk]
        exact ih h l2

theorem alistLookup_singleton {α β : Type} [DecidableEq α] (k : α) (v : β) :
    alistLookup [(k, v)] k = some v := by
  rw [alistLookup, if_pos rfl]

/- ### Which state components each pipeline stage touches -/

theorem getProjectColor_daily (s : ProcState) (p : String) :
    (getProjectColor s p).2.daily = s.daily := by
  unfold getProjectColor
  cases alistLookup s.projectColorMap p <;> rfl

theorem getProjectColor_projectTaskMap (s : ProcState) (p : String) :
    (getProjectColor s p).2.projectTaskMap = s.projectTaskMap := by
  unfold getProjectColor
  cases alistLookup s.projectColorMap p <;> rfl

theorem getProjectColor_fungibleTimeMap (s : ProcState) (p : String) :
    (getProjectColor s p).2.fungibleTimeMap = s.fungibleTimeMap := by
  unfold getProjectColor
  cases alistLookup s.projectColorMap p <;> rfl

theorem getProjectColor_dailyDetailsMap (s : ProcState) (p : String) :
    (getProjectColor s p).2.dailyDetailsMap = s.dailyDetailsMap := by
  unfold getProjectColor
  cases alistLookup s.projectColorMap p <;> rfl

theorem pushDailyDetail_daily (s : ProcState) (d : CivilDate) (det : DailyEventDetail) :
    (pushDailyDetail s d det).daily = s.daily := by
  unfold pushDailyDetail
  split <;> rfl

theorem pushDailyDetail_projectTaskMap (s : ProcState) (d : CivilDate)
    (det : DailyEventDetail) :
    (pushDailyDetail s d det).projectTaskMap = s.projectTaskMap := by
  unfold pushDailyDetail
  split <;> rfl

theorem pushDailyDetail_fungibleTimeMap (s : ProcState) (d : CivilDate)
    (det : DailyEventDetail) :
    (pushDailyDetail s d det).fungibleTimeMap = s.fungibleTimeMap := by
  unfold pushDailyDetail
  split <;> rfl

theorem finishEvent_daily (ev : TaggedEvent) (n : String) (i : ImpactType)
    (s1 : ProcState) : (finishEvent ev n i s1).daily = s1.daily := by
  unfold finishEvent
  split
  · exact pushDailyDetail_daily _ _ _
  · rfl

theorem finishEvent_projectTaskMap (ev : TaggedEvent) (n : String) (i : ImpactType)
    (s1 : ProcState) : (finishEvent ev n i s1).projectTaskMap = s1.projectTaskMap := by
  unfold finishEvent
  split
  · exact pushDailyDetail_projectTaskMap _ _ _
  · rfl

theorem finishEvent_fungibleTimeMap (ev : TaggedEvent) (n : String) (i : ImpactType)
    (s1 : ProcState) : (finishEvent ev n i s1).fungibleTimeMap = s1.fungibleTimeMap := by
  unfold finishEvent
  split
  · exact pushDailyDetail_fungibleTimeMap _ _ _
  · rfl

theorem fungibleSummaryUpdate_daily (ev : TaggedEvent) (cal : GoogleCalendar)
    (k : Int) (s1 : ProcState) :
    (fungibleSummaryUpdate ev cal k s1).daily = s1.daily := by
  unfold fungibleSummaryUpdate
  split
  · exact getProjectColor_daily s1 cal.summary
  · rfl

theorem fungibleSummaryUpdate_dailyDetailsMap (ev : TaggedEvent)
    (cal : GoogleCalendar) (k : Int) (s1 : ProcState) :
    (fungibleSummaryUpdate ev cal k s1).dailyDetailsMap = s1.dailyDetailsMap := by
  unfold fungibleSummaryUpdate
  split
  · exact getProjectColor_dailyDetailsMap s1 cal.summary
  · rfl

theorem taskBucketUpdate_daily (ev : TaggedEvent) (s1 : ProcState) :
    (taskBucketUpdate ev s1).daily = s1.daily := by
  unfold taskBucketUpdate
  dsimp only
  split
  · exact getProjectColor_daily s1 (parseProjectTask ev.summary).1
  · rfl

theorem fungibleBranch_daily (ev : TaggedEvent) (cal : Option GoogleCalendar)
    (k : Int) (s : ProcState) :
    (fungibleBranch ev cal k s).2.daily =
      if k > 0 then applyFungibleDeduction s.daily ev.localDate k else s.daily := by
  unfold fungibleBranch
  cases cal with
  | none => split <;> rfl
  | some c =>
      rw [fungibleSummaryUpdate_daily]
      split <;> rfl

theorem fungibleBranch_impact (ev : TaggedEvent) (cal : Option GoogleCalendar)
    (k : Int) (s : ProcState) :
    (fungibleBranch ev cal k s).1 =
      if k > 0 then ImpactType.reduces_available else ImpactType.ignored := by
  unfold fungibleBranch
  cases cal <;> rfl

theorem taskBranch_daily (ev : TaggedEvent) (k : Int) (s : ProcState) :
    (taskBranch ev k s).2.daily =
      if isBlockedSummary (jsToLower ev.summary) then s.daily
      else if k > 0 then applyTaskDeduction s.daily ev.localDate k else s.daily := by
  unfold taskBranch
  split
  · rfl
  · rw [taskBucketUpdate_daily]
    split <;> rfl

theorem processEvent_skip (cfg : TimeConfig) (cals : List GoogleCalendar)
    (s : ProcState) (ev : TaggedEvent)
    (h : ev.hasStartDateTime = false ∨ ev.hasEndDateTime = false) :
    processEvent cfg cals s ev = s := by
  unfold processEvent
  rw [if_pos h]

theorem processEvent_daily (cfg : TimeConfig) (cals : List GoogleCalendar)
    (s : ProcState) (ev : TaggedEvent) :
    (processEvent cfg cals s ev).daily =
      if ev.hasStartDateTime = false ∨ ev.hasEndDateTime = false then s.daily
      else if (alistLookup s.daily ev.localDate).isNone then s.daily
      else if ev.calendarCategory = CalendarCategory.fungible then
        (if eventOverlap cfg ev > 0 then
          applyFungibleDeduction s.daily ev.localDate (eventOverlap cfg ev)
        else s.daily)
      else if ev.calendarCategory = CalendarCategory.task then
        (if isBlockedSummary (jsToLower ev.summary) then s.daily
         else if eventOverlap cfg ev > 0 then
           applyTaskDeduction s.daily ev.localDate (eventOverlap cfg ev)
         else s.daily)
      else s.daily := by
  unfold processEvent
  by_cases hmiss : ev.hasStartDateTime = false ∨ ev.hasEndDateTime = false
  · rw [if_pos hmiss, if_pos hmiss]
  rw [if_neg hmiss, if_neg hmiss]
  cases hlk : alistLookup s.daily ev.localDate with
  | none => simp
  | some v =>
      rw [if_neg (by simp)]
      dsimp only
      rw [finishEvent_daily]
      by_cases hfun : ev.calendarCategory = CalendarCategory.fungible
      · rw [if_pos hfun, if_pos hfun]
        exact fungibleBranch_daily _ _ _ _
      rw [if_neg hfun, if_neg hfun]
      by_cases htask : ev.calendarCategory = CalendarCategory.task
      · rw [if_pos htask, if_pos htask]
        exact taskBranch_daily _ _ _
      · rw [if_neg htask, if_neg htask]

theorem applyFungibleDeduction_inv (cfg : TimeConfig)
    {daily : List (CivilDate × DayCapacity)} (date : CivilDate) {k : Int}
    (hk : 0 ≤ k) (h : ∀ p ∈ daily, DayInv cfg p) :
    ∀ p ∈ applyFungibleDeduction daily date k, DayInv cfg p := by
  have := alistUpdate_forall (fun a b => DayInv cfg (a, b)) daily date
    (fun d => { d with
        fungibleMinutes := d.fungibleMinutes + (k : ℚ),
        availableMinutes := d.availableMinutes - (k : ℚ) })
    (fun p hp => h p hp)
    (fun v hv => by
      obtain ⟨hf, ht, htot, hav⟩ := hv
      have hk' : (0 : ℚ) ≤ (k : ℚ) := by exact_mod_cast hk
      have hav' : v.availableMinutes
          = (initDayCapacity cfg date).availableMinutes
              - v.fungibleMinutes - v.taskMinutes := hav
      refine ⟨?_, ht, htot, ?_⟩
      · show (0 : ℚ) ≤ v.fungibleMinutes + (k : ℚ)
        exact add_nonneg hf hk'
      · show v.availableMinutes - (k : ℚ)
            = (initDayCapacity cfg date).availableMinutes
                - (v.fungibleMinutes + (k : ℚ)) - v.taskMinutes
        rw [hav']
        ring)
  intro p hp
  exact this p hp

theorem applyTaskDeduction_inv (cfg : TimeConfig)
    {daily : List (CivilDate × DayCapacity)} (date : CivilDate) {k : Int}
    (hk : 0 ≤ k) (h : ∀ p ∈ daily, DayInv cfg p) :
    ∀ p ∈ applyTaskDeduction daily date k, DayInv cfg p := by
  have := alistUpdate_forall (fun a b => DayInv cfg (a, b)) daily date
    (fun d => { d with
        taskMinutes := d.taskMinutes + (k : ℚ),
        availableMinutes := d.availableMinutes - (k : ℚ) })
    (fun p hp => h p hp)
    (fun v hv => by
      obtain ⟨hf, ht, htot, hav⟩ := hv
      have hk' : (0 : ℚ) ≤ (k : ℚ) := by exact_mod_cast hk
      have hav' : v.availableMinutes
          = (initDayCapacity cfg date).availableMinutes
              - v.fungibleMinutes - v.taskMinutes := hav
      refine ⟨hf, ?_, htot, ?_⟩
      · show (0 : ℚ) ≤ v.taskMinutes + (k : ℚ)
        exact add_nonneg ht hk'
      · show v.availableMinutes - (k : ℚ)
            = (initDayCapacity cfg date).availableMinutes
                - v.fungibleMinutes - (v.taskMinutes + (k : ℚ))
        rw [hav']
        ring)
  intro p hp
  exact this p hp

theorem processEvent_DayInv (cfg : TimeConfig) (cals : List GoogleCalendar)
    (s : ProcState) (ev : TaggedEvent) (h : ∀ p ∈ s.daily, DayInv cfg p) :
    ∀ p ∈ (processEvent cfg cals s ev).daily, DayInv cfg p := by
  rw [processEvent_daily]
  split
  · exact h
  split
  · exact h
  split
  · split
    · exact applyFungibleDeduction_inv cfg ev.localDate (le_of_lt (by assumption)) h
    · exact h
  split
  · split
    · exact h
    · split
      · exact applyTaskDeduction_inv cfg ev.localDate (le_of_lt (by assumption)) h
      · exact h
  · exact h

theorem runEvents_DayInv (cfg : TimeConfig) (cals : List GoogleCalendar)
    (events : List TaggedEvent) :
    ∀ s : ProcState, (∀ p ∈ s.daily, DayInv cfg p) →
      ∀ p ∈ (runEvents cfg cals s events).daily, DayInv cfg p := by
  induction events with
  | nil => intro s h; exact h
  | cons e es ih =>
      intro s h
      exact ih (processEvent cfg cals s e) (processEvent_DayInv cfg cals s e h)

theorem initState_DayInv (cfg : TimeConfig) :
    ∀ p ∈ (initState cfg).daily, DayInv cfg p := by
  intro p hp
  simp only [initState, initialDailyAvailabilityMap, List.mem_map] at hp
  obtain ⟨d, _, rfl⟩ := hp
  refine ⟨le_refl 0, le_refl 0, rfl, ?_⟩
  show (initDayCapacity cfg d).availableMinutes
      = (initDayCapacity cfg d).availableMinutes - 0 - 0
  ring

theorem runEvents_filter_skip (cfg : TimeConfig) (cals : List GoogleCalendar) :
    ∀ (events : List TaggedEvent) (s : ProcState),
      runEvents cfg cals s
          (events.filter fun e => e.hasStartDateTime && e.hasEndDateTime)
        = runEvents cfg cals s events := by
  intro events
  induction events with
  | nil => intro s; rfl
  | cons e es ih =>
      intro s
      by_cases hgood : (e.hasStartDateTime && e.hasEndDateTime) = true
      · simp only [List.filter_cons, if_pos hgood]
        exact ih (processEvent cfg cals s e)
      · have hbad : e.hasStartDateTime = false ∨ e.hasEndDateTime = false := by
          cases hS : e.hasStartDateTime <;> cases hE : e.hasEndDateTime <;>
            simp_all
        simp only [List.filter_cons, if_neg hgood]
        have hskip : processEvent cfg cals s e = s := processEvent_skip cfg cals s e hbad
        calc runEvents cfg cals s
              (es.filter fun e => e.hasStartDateTime && e.hasEndDateTime)
            = runEvents cfg cals s es := ih s
          _ = runEvents cfg cals (processEvent cfg cals s e) es := by rw [hskip]

theorem taskBucketUpdate_hours (ev : TaggedEvent) (s1 : ProcState) :
    bucketHours (taskBucketUpdate ev s1).projectTaskMap (taskKeyOf ev.summary)
      = bucketHours s1.projectTaskMap (taskKeyOf ev.summary)
          + ev.durationMinutes / 60 := by
  unfold taskBucketUpdate
  dsimp only
  by_cases h : (alistLookup s1.projectTaskMap (taskKeyOf ev.summary)).isNone = true
  · rw [if_pos h]
    have hn : alistLookup s1.projectTaskMap (taskKeyOf ev.summary) = none :=
      Option.isNone_iff_eq_none.mp h
    unfold bucketHours
    rw [alistLookup_update_self, getProjectColor_projectTaskMap,
      alistLookup_append_of_none hn, alistLookup_singleton, hn]
    simp
  · rw [if_neg h]
    cases hlk : alistLookup s1.projectTaskMap (taskKeyOf ev.summary) with
    | none => rw [hlk] at h; exact absurd rfl h
    | some e =>
        unfold bucketHours
        rw [alistLookup_update_self, hlk]
        simp

theorem fungibleSummaryUpdate_lookup_absent (ev : TaggedEvent)
    (cal : GoogleCalendar) (k : Int) (s1 : ProcState)
    (h : alistLookup s1.fungibleTimeMap ev.calendarId = none) :
    alistLookup (fungibleSummaryUpdate ev cal k s1).fungibleTimeMap ev.calendarId
      = some ⟨cal.summary, 0 + (k : ℚ) / 60, (getProjectColor s1 cal.summary).1⟩ := by
  unfold fungibleSummaryUpdate
  dsimp only
  rw [if_pos (by rw [h]; rfl)]
  rw [alistLookup_update_self, getProjectColor_fungibleTimeMap,
    alistLookup_append_of_none h, alistLookup_singleton]
  rfl

theorem getProjectColor_mem (s : ProcState) (p : String)
    (hcolors : ∀ q ∈ s.projectColorMap, q.2 ∈ PROJECT_COLORS) :
    (getProjectColor s p).1 ∈ PROJECT_COLORS := by
  unfold getProjectColor
  cases hc : alistLookup s.projectColorMap p with
  | some c => exact hcolors (p, c) (alistLookup_mem hc)
  | none =>
      dsimp only
      have hidx : s.nextColorIndex % PROJECT_COLORS.length < PROJECT_COLORS.length :=
        Nat.mod_lt _ (by norm_num [PROJECT_COLORS])
      rw [List.getD_eq_getElem _ _ hidx]
      exact List.getElem_mem _

theorem dailyWindowMinutes_pos (cfg : TimeConfig) (date : CivilDate)
    (h1 : 0 < parseTimeToMinutes cfg.weekdayEndTime - parseTimeToMinutes cfg.weekdayStartTime)
    (h2 : 0 < parseTimeToMinutes cfg.weekendEndTime - parseTimeToMinutes cfg.weekendStartTime) :
    0 < dailyWindowMinutes cfg date := by
  unfold dailyWindowMinutes
  by_cases h : isWeekend date = true <;> simp [h] <;> omega

theorem capacity_bounds_aux (w bf f t : ℚ) (hw : 0 < w) (hb0 : 0 < bf)
    (hb1 : bf ≤ 1) (_hf : 0 ≤ f) (ht : 0 ≤ t) :
    max 0 ((max 0 (w * bf) - f - t) / 60) ≤ max 0 ((max 0 (w * bf / bf) - f) / 60) := by
  have hwbf : (0 : ℚ) ≤ w * bf := le_of_lt (mul_pos hw hb0)
  rw [max_eq_right hwbf]
  have hdiv : w * bf / bf = w := mul_div_cancel_right₀ w (ne_of_gt hb0)
  rw [hdiv, max_eq_right (le_of_lt hw)]
  have hle : w * bf - f - t ≤ w - f := by nlinarith
  have h60 : (w * bf - f - t) / 60 ≤ (w - f) / 60 := by linarith
  exact max_le_max (le_refl 0) h60

/- ### Claims -/

/-- C1 counterexample: in Scenario B (weekday window 09:00-17:00, buffer 0.8,
fungible event 10:00-11:00), the produced report has availableHours 5.4 but the
chart baseline totalHours is 7, not 5.4 as the claim states: `totalMinutes` is
the unbuffered window (480), so `(totalMinutes - fungibleMinutes) / 60 = 7`. -/
theorem C1_counterexample :
    ((processCalendarData scenBConfig scenBCalendars scenBCategories
          scenBEventsOf).toOption.map
        fun r => r.dailyAvailability.map fun d => (d.availableHours, d.totalHours))
      = some [((27 : ℚ) / 5, 7)] ∧ ((7 : ℚ) ≠ 27 / 5) := by
  constructor
  · decide!
  · decide!

/-- C1 (amended): in Scenario B the fungible event yields fungibleMinutes = 60,
reported availableHours = 5.4, and a chart baseline totalHours of 7.0, the
unbuffered window minus fungible time, before any task deduction. -/
theorem C1_total_after_fungible :
    ((runEvents scenBConfig scenBCalendars (initState scenBConfig)
          (relevantEvents scenBCalendars scenBCategories scenBEventsOf)).daily.map
        fun p => p.2.fungibleMinutes) = [60] ∧
    ((processCalendarData scenBConfig scenBCalendars scenBCategories
          scenBEventsOf).toOption.map
        fun r => r.dailyAvailability.map fun d => (d.availableHours, d.totalHours))
      = some [((27 : ℚ) / 5, 7)] := by
  constructor
  · decide!
  · decide!

/-- C2 counterexample: a fungible event covering the whole 09:00-17:00 window on
a day with 384 buffered available minutes leaves `availableMinutes = -96`, which
is negative and differs from `max 0 (totalMinutes - fungibleMinutes - taskMinutes)
= 0`: the deduction loop applies no floor. -/
theorem C2_counterexample :
    ((runEvents scenBConfig scenBCalendars (initState scenBConfig)
          (relevantEvents scenBCalendars scenBCategories fullWindowEventsOf)).daily.map
        fun p => (p.2.availableMinutes, p.2.totalMinutes,
          p.2.fungibleMinutes, p.2.taskMinutes))
      = [((-96 : ℚ), (480 : ℚ), (480 : ℚ), (0 : ℚ))] ∧
    ¬ (0 : ℚ) ≤ -96 ∧ ((-96 : ℚ) ≠ max 0 (480 - 480 - 0)) := by
  refine ⟨by decide!, by decide!, by decide!⟩

/-- C2 (amended): throughout the event pass every per-day capacity record keeps
non-negative fungible and task deductions, an unchanged totalMinutes, and
`availableMinutes` equal to its initial buffered value minus both deductions,
with no clamping applied during the pass (so it can go below 0; only the
reported availableHours is floored at 0). -/
theorem C2_capacity_invariant (cfg : TimeConfig) (cals : List GoogleCalendar)
    (cats : List (String × CalendarCategory)) (eventsOf : String → List GEvent) :
    ∀ p ∈ (runEvents cfg cals (initState cfg)
        (relevantEvents cals cats eventsOf)).daily,
      0 ≤ p.2.fungibleMinutes ∧ 0 ≤ p.2.taskMinutes ∧
      p.2.totalMinutes = (initDayCapacity cfg p.1).totalMinutes ∧
      p.2.availableMinutes =
        (initDayCapacity cfg p.1).availableMinutes
          - p.2.fungibleMinutes - p.2.taskMinutes :=
  fun p hp =>
    runEvents_DayInv cfg cals (relevantEvents cals cats eventsOf)
      (initState cfg) (initState_DayInv cfg) p hp

/-- C2 witness: the invariant instantiated on the Scenario B run at its single
day record (324 available, 480 total, 60 fungible, 0 task minutes). -/
theorem C2_capacity_invariant_witness :
    0 ≤ ((⟨⟨0⟩, ⟨324, 480, 60, 0⟩⟩ : CivilDate × DayCapacity)).2.fungibleMinutes ∧
    0 ≤ ((⟨⟨0⟩, ⟨324, 480, 60, 0⟩⟩ : CivilDate × DayCapacity)).2.taskMinutes ∧
    ((⟨⟨0⟩, ⟨324, 480, 60, 0⟩⟩ : CivilDate × DayCapacity)).2.totalMinutes
      = (initDayCapacity scenBConfig ⟨0⟩).totalMinutes ∧
    ((⟨⟨0⟩, ⟨324, 480, 60, 0⟩⟩ : CivilDate × DayCapacity)).2.availableMinutes
      = (initDayCapacity scenBConfig ⟨0⟩).availableMinutes - 60 - 0 :=
  C2_capacity_invariant scenBConfig scenBCalendars scenBCategories scenBEventsOf
    (⟨⟨0⟩, ⟨324, 480, 60, 0⟩⟩ : CivilDate × DayCapacity) (by decide!)

/-- C3 counterexample: with the end date before the start date (and valid work
windows) the computation does not reject: it succeeds, producing a report. -/
theorem C3_counterexample :
    revRangeConfig.endDate.dayNumber < revRangeConfig.startDate.dayNumber ∧
    (processCalendarData revRangeConfig scenBCalendars scenBCategories
        scenBEventsOf).toOption.isSome = true := by
  constructor
  · decide
  · decide!

/-- C3 (amended): a work window whose end is not after its start is fatal: the
computation rejects and no report is produced; but an end date before the start
date is not rejected: the computation succeeds with an empty date sequence and a
report containing no days. -/
theorem C3_validation_behavior (cfg : TimeConfig) (cals : List GoogleCalendar)
    (cats : List (String × CalendarCategory)) (eventsOf : String → List GEvent) :
    ((parseTimeToMinutes cfg.weekdayEndTime - parseTimeToMinutes cfg.weekdayStartTime ≤ 0 ∨
      parseTimeToMinutes cfg.weekendEndTime - parseTimeToMinutes cfg.weekendStartTime ≤ 0) →
      (processCalendarData cfg cals cats eventsOf).toOption = none) ∧
    (cfg.endDate.dayNumber < cfg.startDate.dayNumber →
      ¬ parseTimeToMinutes cfg.weekdayEndTime - parseTimeToMinutes cfg.weekdayStartTime ≤ 0 →
      ¬ parseTimeToMinutes cfg.weekendEndTime - parseTimeToMinutes cfg.weekendStartTime ≤ 0 →
      ∃ r, processCalendarData cfg cals cats eventsOf = Except.ok r ∧
        r.dailyAvailability = []) := by
  constructor
  · intro h
    simp only [processCalendarData]
    by_cases h1 : parseTimeToMinutes cfg.weekdayEndTime
        - parseTimeToMinutes cfg.weekdayStartTime ≤ 0
    · rw [if_pos h1]; rfl
    · rcases h with h | h
      · exact absurd h h1
      · rw [if_neg h1, if_pos h]; rfl
  · intro hrange h1 h2
    have hdates : getDatesInRange cfg.startDate cfg.endDate = [] := by
      unfold getDatesInRange
      have hz : (cfg.endDate.dayNumber - cfg.startDate.dayNumber + 1).toNat = 0 := by
        omega
      rw [hz]
      rfl
    simp only [processCalendarData]
    rw [if_neg h1, if_neg h2]
    refine ⟨_, rfl, ?_⟩
    dsimp only
    rw [hdates]
    rfl

/-- C3 witness: the inverted work window is rejected with no report, and the
inverted date range yields a successful report with no days. -/
theorem C3_validation_behavior_witness :
    (processCalendarData badWindowConfig scenBCalendars scenBCategories
        scenBEventsOf).toOption = none ∧
    ∃ r, processCalendarData revRangeConfig scenBCalendars scenBCategories
        scenBEventsOf = Except.ok r ∧ r.dailyAvailability = [] := by
  constructor
  · exact (C3_validation_behavior badWindowConfig scenBCalendars scenBCategories
      scenBEventsOf).1 (Or.inl (by decide))
  · exact (C3_validation_behavior revRangeConfig scenBCalendars scenBCategories
      scenBEventsOf).2 (by decide) (by decide) (by decide)

/-- C4 counterexample: for a summary with two colons the task is the text
between the first and second colon ("phase 1"), not the entire remainder after
the first colon ("phase 1: kickoff"): `split(':', 2)` drops the rest. -/
theorem C4_counterexample :
    parseProjectTask "Acme: phase 1: kickoff" = ("Acme", "phase 1") ∧
    "phase 1" ≠ "phase 1: kickoff" := by
  constructor
  · decide
  · decide

/-- C4 (amended): with a colon present, the project is the trimmed text before
the first colon and the task is the trimmed text between the first and second
colon (the second split segment, not the entire remainder); a nonempty summary
with no colon becomes both the project and the task; an empty summary yields
project "Unassigned" and task "Unnamed Task". -/
theorem C4_project_task_parsing :
    (∀ (s p t : String) (rest : List String),
        jsSplit s ':' = p :: t :: rest → strIncludes s ":" = true →
        parseProjectTask s = (jsTrim p, jsTrim t)) ∧
    (∀ s : String, strIncludes s ":" = false → s ≠ "" →
        parseProjectTask s = (s, s)) ∧
    parseProjectTask "" = ("Unassigned", "Unnamed Task") := by
  refine ⟨?_, ?_, by decide⟩
  · intro s p t rest hsplit hinc
    unfold parseProjectTask
    rw [if_pos hinc, hsplit]
  · intro s hninc hne
    unfold parseProjectTask
    rw [if_neg (by simp [hninc]), if_pos hne]

/-- C4 witness: the parsing rules instantiated on "Acme: Draft proposal" (one
colon) and "Standup" (no colon). -/
theorem C4_project_task_parsing_witness :
    parseProjectTask "Acme: Draft proposal" = ("Acme", "Draft proposal") ∧
    parseProjectTask "Standup" = ("Standup", "Standup") := by
  constructor
  · exact C4_project_task_parsing.1 "Acme: Draft proposal" "Acme"
      " Draft proposal" [] (by decide) (by decide)
  · exact C4_project_task_parsing.2.1 "Standup" (by decide) (by decide)

/-- C5: for an event whose timezone-local date equals the analyzed date, the
overlap equals `max 0 (min eventEndClock windowEnd - max eventStartClock
windowStart)` in minutes; it is never negative, it is 0 when the event lies
entirely outside the window, and it is the full window duration when the event
entirely contains the window. -/
theorem C5_overlap_formula (d1 d2 : CivilDate) (eS eE : Int) (wS wE : String)
    (hd : d2 = d1) :
    calculateWorkHoursOverlap d1 d2 eS eE wS wE
        = max 0 (min eE (parseTimeToMinutes wE) - max eS (parseTimeToMinutes wS)) ∧
    0 ≤ calculateWorkHoursOverlap d1 d2 eS eE wS wE ∧
    ((eE ≤ parseTimeToMinutes wS ∨ parseTimeToMinutes wE ≤ eS) →
      calculateWorkHoursOverlap d1 d2 eS eE wS wE = 0) ∧
    (eS ≤ parseTimeToMinutes wS → parseTimeToMinutes wE ≤ eE →
      parseTimeToMinutes wS ≤ parseTimeToMinutes wE →
      calculateWorkHoursOverlap d1 d2 eS eE wS wE
        = parseTimeToMinutes wE - parseTimeToMinutes wS) := by
  unfold calculateWorkHoursOverlap
  rw [if_neg (by simp [hd])]
  dsimp only
  refine ⟨?_, ?_, ?_, ?_⟩
  · split <;> omega
  · split <;> omega
  · intro h; split <;> omega
  · intro ha hb hc; split <;> omega

/-- C5 witness: the overlap contract instantiated on an event 10:00-11:00
against the 09:00-17:00 window on the same date. -/
theorem C5_overlap_formula_witness :
    calculateWorkHoursOverlap ⟨0⟩ ⟨0⟩ 600 660 "09:00" "17:00"
        = max 0 (min 660 (parseTimeToMinutes "17:00")
            - max 600 (parseTimeToMinutes "09:00")) ∧
    0 ≤ calculateWorkHoursOverlap ⟨0⟩ ⟨0⟩ 600 660 "09:00" "17:00" ∧
    ((660 ≤ parseTimeToMinutes "09:00" ∨ parseTimeToMinutes "17:00" ≤ 600) →
      calculateWorkHoursOverlap ⟨0⟩ ⟨0⟩ 600 660 "09:00" "17:00" = 0) ∧
    (600 ≤ parseTimeToMinutes "09:00" → parseTimeToMinutes "17:00" ≤ 660 →
      parseTimeToMinutes "09:00" ≤ parseTimeToMinutes "17:00" →
      calculateWorkHoursOverlap ⟨0⟩ ⟨0⟩ 600 660 "09:00" "17:00"
        = parseTimeToMinutes "17:00" - parseTimeToMinutes "09:00") :=
  C5_overlap_formula ⟨0⟩ ⟨0⟩ 600 660 "09:00" "17:00" rfl

/-- C6: a non-blocked Task-category event on a day of the range contributes its
full event duration (end minus start instant, in hours) to its project/task
bucket, and when its work-window overlap is 0 it changes no day's capacity. -/
theorem C6_task_full_duration (cfg : TimeConfig) (cals : List GoogleCalendar)
    (s : ProcState) (ev : TaggedEvent)
    (hs : ev.hasStartDateTime = true) (he : ev.hasEndDateTime = true)
    (hcat : ev.calendarCategory = CalendarCategory.task)
    (hin : (alistLookup s.daily ev.localDate).isSome = true)
    (hnb : isBlockedSummary (jsToLower ev.summary) = false) :
    bucketHours (processEvent cfg cals s ev).projectTaskMap (taskKeyOf ev.summary)
      = bucketHours s.projectTaskMap (taskKeyOf ev.summary)
          + ev.durationMinutes / 60 ∧
    (eventOverlap cfg ev = 0 → (processEvent cfg cals s ev).daily = s.daily) := by
  obtain ⟨v, hv⟩ := Option.isSome_iff_exists.mp hin
  constructor
  · unfold processEvent
    rw [if_neg (by simp [hs, he]), hv]
    dsimp only
    rw [if_neg (by simp [hcat]), if_pos hcat]
    rw [finishEvent_projectTaskMap]
    unfold taskBranch
    rw [if_neg (by simp [hnb])]
    dsimp only
    rw [taskBucketUpdate_hours]
    have hmap : (if eventOverlap cfg ev > 0 then
        { s with daily := applyTaskDeduction s.daily ev.localDate (eventOverlap cfg ev) }
      else s).projectTaskMap = s.projectTaskMap := by
      split <;> rfl
    rw [hmap]
  · intro hov
    rw [processEvent_daily]
    rw [if_neg (by simp [hs, he]), if_neg (by simp [hv]),
      if_neg (by simp [hcat]), if_pos hcat,
      if_neg (by simp [hnb]), if_neg (by rw [hov]; exact lt_irrefl 0)]

/-- C6 witness: the contract instantiated on the task event
"Acme: Draft proposal" 07:00-08:00, outside the 09:00-17:00 window (overlap 0),
against the fresh Scenario B state: its bucket gains a full hour and the day's
capacity is untouched. -/
theorem C6_task_full_duration_witness :
    bucketHours (processEvent scenBConfig taskCalendars (initState scenBConfig)
          earlyTaskEvent).projectTaskMap (taskKeyOf earlyTaskEvent.summary)
      = bucketHours (initState scenBConfig).projectTaskMap
          (taskKeyOf earlyTaskEvent.summary)
          + earlyTaskEvent.durationMinutes / 60 ∧
    (eventOverlap scenBConfig earlyTaskEvent = 0 →
      (processEvent scenBConfig taskCalendars (initState scenBConfig)
          earlyTaskEvent).daily = (initState scenBConfig).daily) :=
  C6_task_full_duration scenBConfig taskCalendars (initState scenBConfig)
    earlyTaskEvent rfl rfl rfl (by decide) (by decide)

/-- C7: for every day of a successfully produced report, with bufferFactor in
(0, 1], the reported availableHours lies between 0 and that day's reported
totalHours. -/
theorem C7_available_bounds (cfg : TimeConfig) (cals : List GoogleCalendar)
    (cats : List (String × CalendarCategory)) (eventsOf : String → List GEvent)
    (hb0 : 0 < cfg.timeBufferFactor) (hb1 : cfg.timeBufferFactor ≤ 1)
    (r : ProcessedData)
    (hr : processCalendarData cfg cals cats eventsOf = Except.ok r) :
    ∀ day ∈ r.dailyAvailability,
      0 ≤ day.availableHours ∧ day.availableHours ≤ day.totalHours := by
  simp only [processCalendarData] at hr
  by_cases h1 : parseTimeToMinutes cfg.weekdayEndTime
      - parseTimeToMinutes cfg.weekdayStartTime ≤ 0
  · rw [if_pos h1] at hr; exact absurd hr (by simp)
  rw [if_neg h1] at hr
  by_cases h2 : parseTimeToMinutes cfg.weekendEndTime
      - parseTimeToMinutes cfg.weekendStartTime ≤ 0
  · rw [if_pos h2] at hr; exact absurd hr (by simp)
  rw [if_neg h2] at hr
  injection hr with hrr
  subst hrr
  intro day hday
  simp only [finalDailyAvailability, List.mem_map] at hday
  obtain ⟨date, hdate, rfl⟩ := hday
  refine ⟨le_max_left 0 _, ?_⟩
  show max 0 (((alistLookup (runEvents cfg cals (initState cfg)
        (relevantEvents cals cats eventsOf)).daily date).getD
          defaultDayCapacity).availableMinutes / 60)
      ≤ max 0 ((((alistLookup (runEvents cfg cals (initState cfg)
        (relevantEvents cals cats eventsOf)).daily date).getD
          defaultDayCapacity).totalMinutes
        - ((alistLookup (runEvents cfg cals (initState cfg)
        (relevantEvents cals cats eventsOf)).daily date).getD
          defaultDayCapacity).fungibleMinutes) / 60)
  cases hlk : alistLookup (runEvents cfg cals (initState cfg)
      (relevantEvents cals cats eventsOf)).daily date with
  | none => simp [defaultDayCapacity]
  | some v =>
      simp only [Option.getD_some]
      obtain ⟨hf, ht, htot, hav⟩ :=
        runEvents_DayInv cfg cals (relevantEvents cals cats eventsOf)
          (initState cfg) (initState_DayInv cfg) (date, v) (alistLookup_mem hlk)
      have hw : (0 : ℚ) < ((dailyWindowMinutes cfg date : Int) : ℚ) := by
        exact_mod_cast dailyWindowMinutes_pos cfg date (by omega) (by omega)
      have hav' : v.availableMinutes
          = max 0 (((dailyWindowMinutes cfg date : Int) : ℚ) * cfg.timeBufferFactor)
              - v.fungibleMinutes - v.taskMinutes := hav
      have htot' : v.totalMinutes
          = max 0 (((dailyWindowMinutes cfg date : Int) : ℚ) * cfg.timeBufferFactor
              / cfg.timeBufferFactor) := htot
      rw [hav', htot']
      exact capacity_bounds_aux _ cfg.timeBufferFactor v.fungibleMinutes
        v.taskMinutes hw hb0 hb1 hf ht

/-- C7 witness: the bounds hold on the report of the Scenario B run, whose
buffer factor 4/5 lies in (0, 1]. -/
theorem C7_available_bounds_witness :
    ∃ r, processCalendarData scenBConfig scenBCalendars scenBCategories
        scenBEventsOf = Except.ok r ∧
      ∀ day ∈ r.dailyAvailability,
        0 ≤ day.availableHours ∧ day.availableHours ≤ day.totalHours := by
  have hsome : (processCalendarData scenBConfig scenBCalendars scenBCategories
      scenBEventsOf).toOption.isSome = true := by decide!
  cases hr : processCalendarData scenBConfig scenBCalendars scenBCategories
      scenBEventsOf with
  | error e => rw [hr] at hsome; simp [Except.toOption] at hsome
  | ok r =>
      exact ⟨r, rfl, C7_available_bounds scenBConfig scenBCalendars
        scenBCategories scenBEventsOf (by norm_num [scenBConfig])
        (by norm_num [scenBConfig]) r hr⟩

/-- C8: the computation is a pure function of its inputs: running it twice on
the same configuration, calendars, categories and events yields identical
reports, including identical color assignments, because every map (colors
included) is local to one invocation of `processCalendarData`. -/
theorem C8_idempotent (cfg : TimeConfig) (cals : List GoogleCalendar)
    (cats : List (String × CalendarCategory)) (eventsOf : String → List GEvent) :
    processCalendarData cfg cals cats eventsOf
      = processCalendarData cfg cals cats eventsOf ∧
    ((processCalendarData cfg cals cats eventsOf).toOption.map fun r =>
        (r.projectTasks.map ProjectTaskEntry.color,
          r.fungibleTimeSummary.map FungibleTimeSummary.color))
      = ((processCalendarData cfg cals cats eventsOf).toOption.map fun r =>
        (r.projectTasks.map ProjectTaskEntry.color,
          r.fungibleTimeSummary.map FungibleTimeSummary.color)) :=
  ⟨rfl, rfl⟩

/-- C9: an event missing its precise start instant OR its precise end instant
(either one suffices) is skipped entirely: processing it leaves the whole state
(capacities, buckets, fungible summaries, detail rows, colors) unchanged, and a
run over any event list equals the run over the list with such events removed. -/
theorem C9_skip_missing_instants (cfg : TimeConfig) (cals : List GoogleCalendar) :
    (∀ (s : ProcState) (ev : TaggedEvent),
        ev.hasStartDateTime = false ∨ ev.hasEndDateTime = false →
        processEvent cfg cals s ev = s) ∧
    (∀ (s : ProcState) (events : List TaggedEvent),
        runEvents cfg cals s
            (events.filter fun e => e.hasStartDateTime && e.hasEndDateTime)
          = runEvents cfg cals s events) :=
  ⟨fun s ev h => processEvent_skip cfg cals s ev h,
   fun s events => runEvents_filter_skip cfg cals events s⟩

/-- C9 witness: processing an event with no precise start instant leaves the
fresh Scenario B state unchanged. -/
theorem C9_skip_missing_instants_witness :
    processEvent scenBConfig scenBCalendars (initState scenBConfig) noStartEvent
      = initState scenBConfig :=
  (C9_skip_missing_instants scenBConfig scenBCalendars).1
    (initState scenBConfig) noStartEvent (Or.inl rfl)

theorem processEvent_fungible_zero (cfg : TimeConfig) (cals : List GoogleCalendar)
    (s : ProcState) (ev : TaggedEvent) (cal : GoogleCalendar) (v : DayCapacity)
    (hs : ev.hasStartDateTime = true) (he : ev.hasEndDateTime = true)
    (hcat : ev.calendarCategory = CalendarCategory.fungible)
    (hv : alistLookup s.daily ev.localDate = some v)
    (hcal : (cals.find? fun c => c.id == ev.calendarId) = some cal)
    (hov : eventOverlap cfg ev = 0) :
    processEvent cfg cals s ev = fungibleSummaryUpdate ev cal 0 s := by
  unfold processEvent
  rw [if_neg (by simp [hs, he]), hv]
  dsimp only
  rw [hcal, if_pos hcat, hov]
  have hb : fungibleBranch ev (some cal) 0 s
      = (ImpactType.ignored, fungibleSummaryUpdate ev cal 0 s) := by
    unfold fungibleBranch
    rw [if_neg (by decide), if_neg (by decide)]
  rw [hb]
  unfold finishEvent
  rw [if_neg (by simp)]

/-- C10: a fungible-category event with zero work-window overlap (classified
ignored) changes no day's capacity and adds no daily-detail row, yet it still
creates the fungible summary entry for its source calendar when absent, with
zero accumulated hours and a color drawn from the palette. -/
theorem C10_fungible_zero_overlap (cfg : TimeConfig) (cals : List GoogleCalendar)
    (s : ProcState) (ev : TaggedEvent) (cal : GoogleCalendar)
    (hs : ev.hasStartDateTime = true) (he : ev.hasEndDateTime = true)
    (hcat : ev.calendarCategory = CalendarCategory.fungible)
    (hin : (alistLookup s.daily ev.localDate).isSome = true)
    (hcal : (cals.find? fun c => c.id == ev.calendarId) = some cal)
    (habsent : alistLookup s.fungibleTimeMap ev.calendarId = none)
    (hov : eventOverlap cfg ev = 0)
    (hcolors : ∀ q ∈ s.projectColorMap, q.2 ∈ PROJECT_COLORS) :
    (processEvent cfg cals s ev).daily = s.daily ∧
    (∃ e, alistLookup (processEvent cfg cals s ev).fungibleTimeMap ev.calendarId
        = some e ∧
      e.calendarSummary = cal.summary ∧ e.totalHours = 0 ∧
      e.color ∈ PROJECT_COLORS) ∧
    (processEvent cfg cals s ev).dailyDetailsMap = s.dailyDetailsMap := by
  obtain ⟨v, hv⟩ := Option.isSome_iff_exists.mp hin
  rw [processEvent_fungible_zero cfg cals s ev cal v hs he hcat hv hcal hov]
  refine ⟨fungibleSummaryUpdate_daily ev cal 0 s, ?_,
    fungibleSummaryUpdate_dailyDetailsMap ev cal 0 s⟩
  refine ⟨⟨cal.summary, 0 + ((0 : Int) : ℚ) / 60, (getProjectColor s cal.summary).1⟩,
    fungibleSummaryUpdate_lookup_absent ev cal 0 s habsent, rfl, by norm_num, ?_⟩
  exact getProjectColor_mem s cal.summary hcolors

/-- C10 witness: the fungible event 07:00-08:00 (overlap 0) on the fresh
Scenario B state creates the "Errands" summary entry with 0 hours and a palette
color while leaving capacity and details untouched. -/
theorem C10_fungible_zero_overlap_witness :
    (processEvent scenBConfig scenBCalendars (initState scenBConfig)
        earlyFungibleEvent).daily = (initState scenBConfig).daily ∧
    (∃ e, alistLookup (processEvent scenBConfig scenBCalendars
          (initState scenBConfig) earlyFungibleEvent).fungibleTimeMap
        earlyFungibleEvent.calendarId = some e ∧
      e.calendarSummary = (⟨"cal-fungible", "Errands"⟩ : GoogleCalendar).summary ∧
      e.totalHours = 0 ∧ e.color ∈ PROJECT_COLORS) ∧
    (processEvent scenBConfig scenBCalendars (initState scenBConfig)
        earlyFungibleEvent).dailyDetailsMap
      = (initState scenBConfig).dailyDetailsMap :=
  C10_fungible_zero_overlap scenBConfig scenBCalendars (initState scenBConfig)
    earlyFungibleEvent ⟨"cal-fungible", "Errands"⟩ rfl rfl rfl (by decide)
    (by decide) rfl (by decide) (by simp [initState])

end GCalAvailability
